import Mathlib

/-!
Verification of the episode-window ranker of the og-marl verification scripts.

The embedded code comes from:
* src/verification/find_best_episodes.py       (JSON variant)
* src/verification/find_best_episodes_npz.py   (NPZ variant)
* src/verification/create_progression_videos.py (progression segments)

Rewards are modelled as a list of timesteps, each holding the list of
per-agent scalar rewards as rationals.  Python built-ins that the scripts
rely on (range, slicing, floor division, numpy argsort/sum/mean) are given
explicit models below; numpy argsort is modelled as a stable ascending sort
(numpy kind stable; for the small arrays used in the concrete theorems the
default introsort degenerates to a stable insertion sort as well).
-/

/-- Python floor division a // b, modelled by integer floor division. -/
def pyFloorDiv (a b : Int) : Int := Int.fdiv a b

/-- Python range(start, stop, step) as a list of integers, for a nonzero
step.  For a positive step the elements are start, start+step, ... while
strictly below stop; symmetrically for a negative step. -/
def pyRangeList (start stop step : Int) : List Int :=
  let n : Nat :=
    if 0 < step then
      if stop ≤ start then 0 else (stop - start - 1).toNat / step.toNat + 1
    else
      if start ≤ stop then 0 else (start - stop - 1).toNat / (-step).toNat + 1
  (List.range n).map (fun k : Nat => start + (k : Int) * step)

/-- Python range(start, stop, step): a zero step raises ValueError. -/
def pyRange (start stop step : Int) : Except String (List Int) :=
  if step = 0 then Except.error "ValueError: range() arg 3 must not be zero"
  else Except.ok (pyRangeList start stop step)

/-- Python slice xs[a:b] with the usual clamping and negative-index rules. -/
def pySlice {α : Type} (xs : List α) (a b : Int) : List α :=
  let n : Int := xs.length
  let lo : Int := if a < 0 then max (n + a) 0 else min a n
  let hi : Int := if b < 0 then max (n + b) 0 else min b n
  (xs.drop lo.toNat).take (hi - lo).toNat

/-- Python slice xs[i:]. -/
def pySliceFrom {α : Type} (xs : List α) (i : Int) : List α :=
  xs.drop (if i < 0 then ((xs.length : Int) + i).toNat else i.toNat)

/-- Python slice xs[:i]. -/
def pySliceTo {α : Type} (xs : List α) (i : Int) : List α :=
  xs.take (if i < 0 then ((xs.length : Int) + i).toNat else i.toNat)

/-- numpy mean of a vector of rationals (the scripts only apply it to the
nonempty per-timestep reward vectors). -/
def npMean (xs : List ℚ) : ℚ := xs.sum / (xs.length : ℚ)

/-- Insert a pair into an index-value list sorted ascending by value,
after every entry whose value is less than or equal to the new value. -/
def insertByValue (x : Nat × ℚ) : List (Nat × ℚ) → List (Nat × ℚ)
  | [] => [x]
  | y :: ys => if x.2 < y.2 then x :: y :: ys else y :: insertByValue x ys

/-- Stable insertion sort of an index-value list, ascending by value. -/
def stableInsertionSort (l : List (Nat × ℚ)) : List (Nat × ℚ) :=
  l.foldl (fun acc x => insertByValue x acc) []

/-- numpy argsort (ascending), modelled as a stable sort: the indices that
would sort the array, ties listed in increasing index order. -/
def npArgsort (xs : List ℚ) : List Nat :=
  (stableInsertionSort xs.enum).map Prod.fst

/-- The window-start loop header shared by find_best_episodes.py line 39
and find_best_episodes_npz.py line 53: range(0, T - L, S), with the stride
S abstracted (both scripts pass S = L // 2). -/
def candidateStarts (T L S : Int) : List Int := pyRangeList 0 (T - L) S

/-- find_best_episodes.py lines 40 to 43: the score of one window, the sum
over t in range(start, min(start + episode_length, len(trajectories))) of
np.mean of the reward vector at timestep t. -/
def windowScore (trajectories : List (List ℚ)) (start episode_length : Int) : ℚ :=
  ((pyRangeList start (min (start + episode_length) (trajectories.length : Int)) 1).map
    (fun t => npMean (trajectories.getD t.toNat []))).sum

/-- find_best_episodes_npz.py line 54: np.sum of the two-dimensional slice
rewards[start : start + episode_length], summing over timesteps and agents. -/
def npzWindowScore (rewards : List (List ℚ)) (start episode_length : Int) : ℚ :=
  ((pySlice rewards start (start + episode_length)).map List.sum).sum

/-- create_progression_videos.py lines 64 to 65: np.sum of the slice
rewards[start:end] with end = start + episode_length. -/
def segmentReward (rewards : List (List ℚ)) (start episode_length : Int) : ℚ :=
  ((pySlice rewards start (start + episode_length)).map List.sum).sum

/-- find_best_episodes.py line 57 and find_best_episodes_npz.py line 69:
np.argsort(episode_rewards)[-top_n:][::-1]. -/
def bestIndicesOf (episode_rewards : List ℚ) (top_n : Int) : List Nat :=
  (pySliceFrom (npArgsort episode_rewards) (-top_n)).reverse

/-- find_best_episodes.py line 67:
np.argsort(episode_rewards)[:min(top_n, len(episode_rewards))]. -/
def worstIndicesOf (episode_rewards : List ℚ) (top_n : Int) : List Nat :=
  pySliceTo (npArgsort episode_rewards) (min top_n (episode_rewards.length : Int))

/-- find_best_episodes_npz.py line 81: np.argsort(episode_rewards)[:top_n]. -/
def worstIndicesNpz (episode_rewards : List ℚ) (top_n : Int) : List Nat :=
  pySliceTo (npArgsort episode_rewards) top_n

/-- The data the ranking part of either script computes: window start
indices, window scores, and the selected best and worst argsort indices. -/
structure RankResult where
  episode_starts : List Int
  episode_rewards : List ℚ
  best_indices : List Nat
  worst_indices : List Nat
  deriving DecidableEq, Repr

/-- The ranking core of find_best_episodes.py (JSON variant).  Failure
points are modelled where the Python raises: a zero stride raises inside
range (line 39), an empty window list raises at np.min (line 52), and an
empty best or worst index list raises at the subscription
episode_starts[best_indices[0]] (line 77) or
episode_starts[worst_indices[0]] (line 95). -/
def find_best_episodes (trajectories : List (List ℚ)) (episode_length top_n : Int) :
    Except String RankResult :=
  match pyRange 0 ((trajectories.length : Int) - episode_length)
      (pyFloorDiv episode_length 2) with
  | Except.error e => Except.error e
  | Except.ok episode_starts =>
    let episode_rewards :=
      episode_starts.map (fun start => windowScore trajectories start episode_length)
    if episode_rewards.isEmpty then
      Except.error "ValueError: zero-size array to reduction operation minimum which has no identity"
    else
      let best_indices := bestIndicesOf episode_rewards top_n
      let worst_indices := worstIndicesOf episode_rewards top_n
      if best_indices.isEmpty then
        Except.error "IndexError: list index out of range"
      else if worst_indices.isEmpty then
        Except.error "IndexError: list index out of range"
      else
        Except.ok ⟨episode_starts, episode_rewards, best_indices, worst_indices⟩

/-- The ranking core of find_best_episodes_npz.py.  Identical structure,
except the window score is the plain sum over agents and timesteps, and the
worst selection does not clamp top_n with min. -/
def find_best_episodes_npz (rewards : List (List ℚ)) (episode_length top_n : Int) :
    Except String RankResult :=
  match pyRange 0 ((rewards.length : Int) - episode_length)
      (pyFloorDiv episode_length 2) with
  | Except.error e => Except.error e
  | Except.ok episode_starts =>
    let episode_rewards :=
      episode_starts.map (fun start => npzWindowScore rewards start episode_length)
    if episode_rewards.isEmpty then
      Except.error "ValueError: zero-size array to reduction operation minimum which has no identity"
    else
      let best_indices := bestIndicesOf episode_rewards top_n
      let worst_indices := worstIndicesNpz episode_rewards top_n
      if best_indices.isEmpty then
        Except.error "IndexError: list index out of range"
      else if worst_indices.isEmpty then
        Except.error "IndexError: list index out of range"
      else
        Except.ok ⟨episode_starts, episode_rewards, best_indices, worst_indices⟩

/-- Strict before-order for an ascending listing of window indices:
smaller score first, ties broken by earlier window index. -/
def ascBefore (scores : List ℚ) (i j : Nat) : Prop :=
  scores.getD i 0 < scores.getD j 0 ∨ (scores.getD i 0 = scores.getD j 0 ∧ i < j)

/-- Strict before-order for a descending listing of window indices:
larger score first, ties broken by later window index. -/
def descBefore (scores : List ℚ) (i j : Nat) : Prop :=
  scores.getD j 0 < scores.getD i 0 ∨ (scores.getD i 0 = scores.getD j 0 ∧ j < i)

-- Sanity checks on the embedding (concrete evaluations).
example : candidateStarts 10 3 3 = [0, 3, 6] := by decide
example : pyRangeList 0 7 2 = [0, 2, 4, 6] := by decide
example : npArgsort [5, 1, 3] = [1, 2, 0] := by
  norm_num [npArgsort, stableInsertionSort, insertByValue, List.enum, List.enumFrom]
example : npArgsort [2, 2, 2] = [0, 1, 2] := by
  norm_num [npArgsort, stableInsertionSort, insertByValue, List.enum, List.enumFrom]
example : bestIndicesOf [2, 2, 2] 2 = [2, 1] := by
  have h : npArgsort [2, 2, 2] = [0, 1, 2] := by
    norm_num [npArgsort, stableInsertionSort, insertByValue, List.enum, List.enumFrom]
  rw [bestIndicesOf, h]; decide
example : worstIndicesOf [2, 2, 2] 2 = [0, 1] := by
  have h : npArgsort [2, 2, 2] = [0, 1, 2] := by
    norm_num [npArgsort, stableInsertionSort, insertByValue, List.enum, List.enumFrom]
  rw [worstIndicesOf, h]; decide
example : windowScore [[1, 3], [2, 4]] 0 2 = 5 := by
  norm_num [windowScore, pyRangeList, npMean, List.range_succ]
example : npzWindowScore [[1, 3], [2, 4]] 0 2 = 10 := by
  simp [npzWindowScore, pySlice]
  norm_num
example : pySlice [10, 20, 30] 0 (-1) = [10, 20] := by decide
example : pySliceFrom [10, 20, 30] (-2) = [20, 30] := by decide

/-! Helper lemmas about the stable sort underlying the argsort model. -/

/-- Strict strengthening of the ascending value order carried by the stable
sort: smaller value first, equal values ordered by original index. -/
def keyLt (p q : Nat × ℚ) : Prop := p.2 < q.2 ∨ (p.2 = q.2 ∧ p.1 < q.1)

theorem insertByValue_mem (x q : Nat × ℚ) (l : List (Nat × ℚ)) :
    q ∈ insertByValue x l ↔ q = x ∨ q ∈ l := by
  induction l with
  | nil => simp [insertByValue]
  | cons y ys ih =>
    simp only [insertByValue]
    split
    · simp [List.mem_cons]
    · simp only [List.mem_cons, ih]
      tauto

theorem insertByValue_length (x : Nat × ℚ) (l : List (Nat × ℚ)) :
    (insertByValue x l).length = l.length + 1 := by
  induction l with
  | nil => rfl
  | cons y ys ih =>
    simp only [insertByValue]
    split
    · rfl
    · simp [ih]

theorem foldl_insert_mem (l : List (Nat × ℚ)) :
    ∀ (acc : List (Nat × ℚ)) (q : Nat × ℚ),
      (q ∈ l.foldl (fun a x => insertByValue x a) acc ↔ q ∈ l ∨ q ∈ acc) := by
  induction l with
  | nil => simp
  | cons x t ih =>
    intro acc q
    simp only [List.foldl_cons, ih, insertByValue_mem, List.mem_cons]
    tauto

theorem stableInsertionSort_mem (l : List (Nat × ℚ)) (q : Nat × ℚ) :
    q ∈ stableInsertionSort l ↔ q ∈ l := by
  simp [stableInsertionSort, foldl_insert_mem]

theorem foldl_insert_length (l : List (Nat × ℚ)) :
    ∀ acc : List (Nat × ℚ),
      (l.foldl (fun a x => insertByValue x a) acc).length = l.length + acc.length := by
  induction l with
  | nil => simp
  | cons x t ih =>
    intro acc
    simp only [List.foldl_cons, ih, insertByValue_length, List.length_cons]
    omega

theorem stableInsertionSort_length (l : List (Nat × ℚ)) :
    (stableInsertionSort l).length = l.length := by
  simp [stableInsertionSort, foldl_insert_length]

theorem insertByValue_pairwise (x : Nat × ℚ) (l : List (Nat × ℚ))
    (hl : l.Pairwise keyLt) (hx : ∀ y ∈ l, y.1 < x.1) :
    (insertByValue x l).Pairwise keyLt := by
  induction l with
  | nil => simp [insertByValue, List.pairwise_singleton]
  | cons y ys ih =>
    rcases List.pairwise_cons.mp hl with ⟨hy, hys⟩
    by_cases hxy : x.2 < y.2
    · simp only [insertByValue, if_pos hxy]
      refine List.pairwise_cons.mpr ⟨?_, hl⟩
      intro z hz
      rcases List.mem_cons.mp hz with rfl | hz
      · exact Or.inl hxy
      · rcases hy z hz with h2 | ⟨h2, _⟩
        · exact Or.inl (lt_trans hxy h2)
        · exact Or.inl (h2 ▸ hxy)
    · simp only [insertByValue, if_neg hxy]
      refine List.pairwise_cons.mpr
        ⟨?_, ih hys (fun z hz2 => hx z (List.mem_cons.mpr (Or.inr hz2)))⟩
      intro z hz
      rcases (insertByValue_mem x z ys).mp hz with rfl | hz
      · rcases lt_or_eq_of_le (le_of_not_lt hxy) with h2 | h2
        · exact Or.inl h2
        · exact Or.inr ⟨h2, hx y (List.mem_cons.mpr (Or.inl rfl))⟩
      · exact hy z hz

theorem foldl_insert_pairwise (l : List (Nat × ℚ)) :
    ∀ acc : List (Nat × ℚ), acc.Pairwise keyLt →
      l.Pairwise (fun p q => p.1 < q.1) →
      (∀ p ∈ acc, ∀ x ∈ l, p.1 < x.1) →
      (l.foldl (fun a x => insertByValue x a) acc).Pairwise keyLt := by
  induction l with
  | nil => intro acc hacc _ _; simpa using hacc
  | cons x t ih =>
    intro acc hacc hl hcross
    rcases List.pairwise_cons.mp hl with ⟨hx, ht⟩
    simp only [List.foldl_cons]
    refine ih (insertByValue x acc) ?_ ht ?_
    · exact insertByValue_pairwise x acc hacc
        (fun y hy => hcross y hy x (List.mem_cons.mpr (Or.inl rfl)))
    · intro p hp z hz
      rcases (insertByValue_mem x p acc).mp hp with rfl | hp
      · exact hx z hz
      · exact hcross p hp z (List.mem_cons.mpr (Or.inr hz))

theorem enum_pairwise (xs : List ℚ) :
    xs.enum.Pairwise (fun p q => p.1 < q.1) := by
  have h := List.pairwise_lt_range xs.length
  rw [← List.enum_map_fst xs] at h
  exact List.pairwise_map.mp h

theorem stableInsertionSort_enum_pairwise (xs : List ℚ) :
    (stableInsertionSort xs.enum).Pairwise keyLt := by
  refine foldl_insert_pairwise xs.enum [] (by simp) (enum_pairwise xs) (by simp)

theorem mem_enumFrom_link (xs : List ℚ) :
    ∀ (i : Nat) (p : Nat × ℚ), p ∈ xs.enumFrom i →
      i ≤ p.1 ∧ p.1 - i < xs.length ∧ xs.getD (p.1 - i) 0 = p.2 := by
  induction xs with
  | nil => intro i p hp; simp [List.enumFrom] at hp
  | cons a t ih =>
    intro i p hp
    rcases List.mem_cons.mp hp with h | h
    · subst h
      simp
    · obtain ⟨h1, h2, h3⟩ := ih (i + 1) p h
      refine ⟨by omega, by simp only [List.length_cons]; omega, ?_⟩
      have hstep : p.1 - i = (p.1 - (i + 1)) + 1 := by omega
      rw [hstep, List.getD_cons_succ]
      exact h3

theorem mem_enum_link (xs : List ℚ) (p : Nat × ℚ) (hp : p ∈ xs.enum) :
    p.1 < xs.length ∧ xs.getD p.1 0 = p.2 := by
  have h := mem_enumFrom_link xs 0 p (by simpa [List.enum] using hp)
  simpa using h

theorem exists_enum_of_mem (xs : List ℚ) (q : ℚ) (hq : q ∈ xs) :
    ∃ j : Nat, (j, q) ∈ xs.enum := by
  suffices h : ∀ i : Nat, ∃ j : Nat, (j, q) ∈ xs.enumFrom i by
    simpa [List.enum] using h 0
  induction xs with
  | nil => cases hq
  | cons a t ih =>
    intro i
    rcases List.mem_cons.mp hq with h | h
    · exact ⟨i, by simp [List.enumFrom, h]⟩
    · obtain ⟨j, hj⟩ := ih h (i + 1)
      exact ⟨j, by simp only [List.enumFrom, List.mem_cons]; exact Or.inr hj⟩

/-- Every index listed by the argsort is a valid position, and the pair it
came from carries exactly the score stored at that position. -/
theorem mem_sorted_link (xs : List ℚ) (p : Nat × ℚ)
    (hp : p ∈ stableInsertionSort xs.enum) :
    p.1 < xs.length ∧ xs.getD p.1 0 = p.2 :=
  mem_enum_link xs p ((stableInsertionSort_mem xs.enum p).mp hp)

theorem npArgsort_length (xs : List ℚ) : (npArgsort xs).length = xs.length := by
  simp [npArgsort, stableInsertionSort_length, List.enum_length]

theorem pairwise_take_drop {α : Type} {R : α → α → Prop} {l : List α} (h : l.Pairwise R)
    (k : Nat) : ∀ x ∈ l.take k, ∀ y ∈ l.drop k, R x y := by
  have hsplit : l.take k ++ l.drop k = l := List.take_append_drop k l
  rw [← hsplit] at h
  exact (List.pairwise_append.mp h).2.2

theorem length_le_one_eq {α : Type} {l : List α} (h : l.length ≤ 1)
    {x y : α} (hx : x ∈ l) (hy : y ∈ l) : x = y := by
  match l, h with
  | [], _ => cases hx
  | [a], _ =>
    rcases List.mem_singleton.mp hx with rfl
    rcases List.mem_singleton.mp hy with rfl
    rfl

/-- The single index selected by argsort[-1:][::-1] carries a maximal score. -/
theorem bestIndicesOf_one_max (xs : List ℚ) (i : Nat) (hi : i ∈ bestIndicesOf xs 1)
    (q : ℚ) (hq : q ∈ xs) : q ≤ xs.getD i 0 := by
  have hi2 : i ∈ pySliceFrom (npArgsort xs) (-1) := List.mem_reverse.mp hi
  have hlen : (npArgsort xs).length = xs.length := npArgsort_length xs
  have hxsne : xs ≠ [] := List.ne_nil_of_mem hq
  have hn : 1 ≤ xs.length := List.length_pos.mpr hxsne
  have hdrop : pySliceFrom (npArgsort xs) (-1) = (npArgsort xs).drop (xs.length - 1) := by
    unfold pySliceFrom
    rw [if_pos (by omega), hlen]
    congr 1
    omega
  rw [hdrop, npArgsort, ← List.map_drop] at hi2
  obtain ⟨p, hp, hpi⟩ := List.mem_map.mp hi2
  obtain ⟨j, hj⟩ := exists_enum_of_mem xs q hq
  have hjs : (j, q) ∈ stableInsertionSort xs.enum := (stableInsertionSort_mem _ _).mpr hj
  have hslen : (stableInsertionSort xs.enum).length = xs.length := by
    rw [stableInsertionSort_length, List.enum_length]
  have hpair := stableInsertionSort_enum_pairwise xs
  have hpS : p ∈ stableInsertionSort xs.enum := List.mem_of_mem_drop hp
  have hlink := mem_sorted_link xs p hpS
  have hq2 : q ≤ p.2 := by
    rcases (List.mem_append.mp (by
        rw [List.take_append_drop (xs.length - 1) (stableInsertionSort xs.enum)]
        exact hjs)) with htake | hdrop2
    · rcases pairwise_take_drop hpair (xs.length - 1) _ htake p hp with h2 | ⟨h2, _⟩
      · exact le_of_lt h2
      · exact le_of_eq h2
    · have hd1 : ((stableInsertionSort xs.enum).drop (xs.length - 1)).length ≤ 1 := by
        rw [List.length_drop, hslen]
        omega
      have heq := length_le_one_eq hd1 hdrop2 hp
      rw [← heq]
  rw [← hpi, hlink.2]
  exact hq2

/-- The single index selected by argsort[:1] carries a minimal score. -/
theorem argsort_take_one_min (xs : List ℚ) (i : Nat) (hi : i ∈ (npArgsort xs).take 1)
    (q : ℚ) (hq : q ∈ xs) : xs.getD i 0 ≤ q := by
  rw [npArgsort, ← List.map_take] at hi
  obtain ⟨p, hp, hpi⟩ := List.mem_map.mp hi
  obtain ⟨j, hj⟩ := exists_enum_of_mem xs q hq
  have hjs : (j, q) ∈ stableInsertionSort xs.enum := (stableInsertionSort_mem _ _).mpr hj
  have hpair := stableInsertionSort_enum_pairwise xs
  have hpS : p ∈ stableInsertionSort xs.enum := List.mem_of_mem_take hp
  have hlink := mem_sorted_link xs p hpS
  have hq2 : p.2 ≤ q := by
    rcases (List.mem_append.mp (by
        rw [List.take_append_drop 1 (stableInsertionSort xs.enum)]
        exact hjs)) with htake | hdrop2
    · have hd1 : ((stableInsertionSort xs.enum).take 1).length ≤ 1 := by
        simp
      have heq := length_le_one_eq hd1 htake hp
      rw [← heq]
    · rcases pairwise_take_drop hpair 1 p hp _ hdrop2 with h2 | ⟨h2, _⟩
      · exact le_of_lt h2
      · exact le_of_eq h2
  rw [← hpi, hlink.2]
  exact hq2

theorem worstIndicesNpz_one_eq (xs : List ℚ) :
    worstIndicesNpz xs 1 = (npArgsort xs).take 1 := by
  unfold worstIndicesNpz pySliceTo
  rw [if_neg (by omega : ¬ ((1:Int) < 0))]
  rfl

theorem worstIndicesOf_one_eq (xs : List ℚ) (h : xs ≠ []) :
    worstIndicesOf xs 1 = (npArgsort xs).take 1 := by
  have hn : 1 ≤ xs.length := List.length_pos.mpr h
  unfold worstIndicesOf pySliceTo
  rw [min_eq_left (by exact_mod_cast hn), if_neg (by omega : ¬ ((1:Int) < 0))]
  rfl

theorem bestIndicesOf_one_ne_nil (xs : List ℚ) (h : xs ≠ []) :
    bestIndicesOf xs 1 ≠ [] := by
  have hn : 1 ≤ xs.length := List.length_pos.mpr h
  have hlen : (npArgsort xs).length = xs.length := npArgsort_length xs
  unfold bestIndicesOf pySliceFrom
  rw [if_pos (by omega : (-1:Int) < 0)]
  intro hcon
  have hcon2 := congrArg List.length hcon
  simp only [List.length_reverse, List.length_drop, List.length_nil, hlen] at hcon2
  omega

theorem worstIndicesNpz_one_ne_nil (xs : List ℚ) (h : xs ≠ []) :
    worstIndicesNpz xs 1 ≠ [] := by
  have hn : 1 ≤ xs.length := List.length_pos.mpr h
  have hlen : (npArgsort xs).length = xs.length := npArgsort_length xs
  rw [worstIndicesNpz_one_eq]
  intro hcon
  have hcon2 := congrArg List.length hcon
  simp only [List.length_take, List.length_nil, hlen] at hcon2
  omega

theorem worstIndicesOf_one_ne_nil (xs : List ℚ) (h : xs ≠ []) :
    worstIndicesOf xs 1 ≠ [] := by
  have hn : 1 ≤ xs.length := List.length_pos.mpr h
  have hlen : (npArgsort xs).length = xs.length := npArgsort_length xs
  rw [worstIndicesOf_one_eq xs h]
  intro hcon
  have hcon2 := congrArg List.length hcon
  simp only [List.length_take, List.length_nil, hlen] at hcon2
  omega

/-- Inversion of the NPZ ranking core at a successful run. -/
theorem find_best_episodes_npz_ok_inv (rewards : List (List ℚ)) (L k : Int)
    (res : RankResult) (h : find_best_episodes_npz rewards L k = Except.ok res) :
    res.episode_rewards = res.episode_starts.map (fun s => npzWindowScore rewards s L) ∧
    res.episode_rewards ≠ [] ∧
    res.best_indices = bestIndicesOf res.episode_rewards k ∧
    res.worst_indices = worstIndicesNpz res.episode_rewards k := by
  unfold find_best_episodes_npz at h
  split at h
  · exact absurd h (by simp)
  · simp only [] at h
    split at h
    · exact absurd h (by simp)
    · split at h
      · exact absurd h (by simp)
      · split at h
        · exact absurd h (by simp)
        · rw [Except.ok.injEq] at h
          rename_i hs hb hw
          subst h
          refine ⟨rfl, ?_, rfl, rfl⟩
          simpa [List.isEmpty_iff] using hs

/-- Forward decomposition of the JSON ranking core, used to evaluate it on
concrete inputs componentwise. -/
theorem find_best_episodes_eq (trajectories : List (List ℚ)) (L k : Int)
    (starts : List Int) (scores : List ℚ) (best worst : List Nat)
    (h0 : pyFloorDiv L 2 ≠ 0)
    (h1 : pyRangeList 0 ((trajectories.length : Int) - L) (pyFloorDiv L 2) = starts)
    (h2 : starts.map (fun s => windowScore trajectories s L) = scores)
    (h3 : scores ≠ [])
    (h4 : bestIndicesOf scores k = best)
    (h5 : worstIndicesOf scores k = worst)
    (h6 : best ≠ []) (h7 : worst ≠ []) :
    find_best_episodes trajectories L k = Except.ok ⟨starts, scores, best, worst⟩ := by
  unfold find_best_episodes pyRange
  rw [if_neg h0]
  simp only [h1, h2, h4, h5]
  rw [if_neg (by simp only [List.isEmpty_iff]; exact h3),
    if_neg (by simp only [List.isEmpty_iff]; exact h6),
    if_neg (by simp only [List.isEmpty_iff]; exact h7)]

/-- Forward decomposition of the NPZ ranking core. -/
theorem find_best_episodes_npz_eq (rewards : List (List ℚ)) (L k : Int)
    (starts : List Int) (scores : List ℚ) (best worst : List Nat)
    (h0 : pyFloorDiv L 2 ≠ 0)
    (h1 : pyRangeList 0 ((rewards.length : Int) - L) (pyFloorDiv L 2) = starts)
    (h2 : starts.map (fun s => npzWindowScore rewards s L) = scores)
    (h3 : scores ≠ [])
    (h4 : bestIndicesOf scores k = best)
    (h5 : worstIndicesNpz scores k = worst)
    (h6 : best ≠ []) (h7 : worst ≠ []) :
    find_best_episodes_npz rewards L k = Except.ok ⟨starts, scores, best, worst⟩ := by
  unfold find_best_episodes_npz pyRange
  rw [if_neg h0]
  simp only [h1, h2, h4, h5]
  rw [if_neg (by simp only [List.isEmpty_iff]; exact h3),
    if_neg (by simp only [List.isEmpty_iff]; exact h6),
    if_neg (by simp only [List.isEmpty_iff]; exact h7)]

theorem one_le_fdiv_two (L : Int) (h : 2 ≤ L) : 1 ≤ pyFloorDiv L 2 := by
  unfold pyFloorDiv
  rw [Int.fdiv_eq_ediv _ (by omega)]
  omega

/-- Membership in a positive-step python range from 0. -/
theorem mem_pyRangeList_iff (stop step x : Int) (hstep : 0 < step) :
    x ∈ pyRangeList 0 stop step ↔ ∃ m : Nat, x = (m : Int) * step ∧ (m : Int) * step < stop := by
  unfold pyRangeList
  simp only [if_pos hstep, List.mem_map, List.mem_range, zero_add, sub_zero]
  constructor
  · rintro ⟨m, hm, rfl⟩
    refine ⟨m, rfl, ?_⟩
    by_cases hc : stop ≤ 0
    · rw [if_pos hc] at hm
      omega
    · rw [if_neg hc] at hm
      push_neg at hc
      have hs0 : 0 < step.toNat := by omega
      have hm2 : m ≤ (stop - 1).toNat / step.toNat := by omega
      have hm3 : m * step.toNat ≤ (stop - 1).toNat := (Nat.le_div_iff_mul_le hs0).mp hm2
      have hcast : ((m * step.toNat : Nat) : Int) = (m : Int) * step := by
        push_cast
        rw [Int.toNat_of_nonneg (by omega)]
      have hcast2 : (((stop - 1).toNat : Nat) : Int) = stop - 1 :=
        Int.toNat_of_nonneg (by omega)
      have := (Int.ofNat_le.mpr hm3)
      rw [hcast, hcast2] at this
      omega
  · rintro ⟨m, rfl, hlt⟩
    refine ⟨m, ?_, rfl⟩
    have hms : (0 : Int) ≤ (m : Int) * step := by positivity
    by_cases hc : stop ≤ 0
    · omega
    · rw [if_neg hc]
      push_neg at hc
      have hs0 : 0 < step.toNat := by omega
      have hm3 : m * step.toNat ≤ (stop - 1).toNat := by
        have hcast : ((m * step.toNat : Nat) : Int) = (m : Int) * step := by
          push_cast
          rw [Int.toNat_of_nonneg (by omega)]
        have hcast2 : (((stop - 1).toNat : Nat) : Int) = stop - 1 :=
          Int.toNat_of_nonneg (by omega)
        rw [← Int.ofNat_le, hcast, hcast2]
        omega
      have hm2 : m ≤ (stop - 1).toNat / step.toNat := (Nat.le_div_iff_mul_le hs0).mpr hm3
      omega

theorem pyRangeList_zero_length (stop step : Int) (hstep : 0 < step) :
    (pyRangeList 0 stop step).length =
      if stop ≤ 0 then 0 else (stop - 1).toNat / step.toNat + 1 := by
  unfold pyRangeList
  simp only [if_pos hstep, List.length_map, List.length_range, sub_zero]

theorem mem_candidateStarts_iff (T L S x : Int) (hS : 1 ≤ S) :
    x ∈ candidateStarts T L S ↔ ∃ m : Nat, x = (m : Int) * S ∧ x + L < T := by
  unfold candidateStarts
  rw [mem_pyRangeList_iff _ _ _ (by omega)]
  constructor
  · rintro ⟨m, rfl, h⟩
    exact ⟨m, rfl, by omega⟩
  · rintro ⟨m, rfl, h⟩
    exact ⟨m, rfl, by omega⟩

theorem candidateStarts_length (T L S : Int) (hS : 1 ≤ S) :
    (candidateStarts T L S).length =
      if L < T then (T - L - 1).toNat / S.toNat + 1 else 0 := by
  unfold candidateStarts
  rw [pyRangeList_zero_length _ _ (by omega)]
  split_ifs with h1 h2
  · omega
  · rfl
  · rfl
  · omega

theorem pySlice_nonneg_eq {α : Type} (xs : List α) (a b : Int)
    (h0 : 0 ≤ a) (hab : a ≤ b) (hb : b ≤ (xs.length : Int)) :
    pySlice xs a b = (xs.drop a.toNat).take (b - a).toNat := by
  simp only [pySlice]
  rw [if_neg (by omega), if_neg (by omega), min_eq_left (by omega), min_eq_left (by omega)]

/-- A window slice with in-range bounds lists exactly the rows indexed by
the corresponding python range. -/
theorem slice_eq_range_map (xs : List (List ℚ)) (start L : Int)
    (h0 : 0 ≤ start) (hL : 0 ≤ L) (h1 : start + L ≤ (xs.length : Int)) :
    pySlice xs start (start + L) =
      (pyRangeList start (min (start + L) (xs.length : Int)) 1).map
        (fun t => xs.getD t.toNat []) := by
  rw [min_eq_left h1, pySlice_nonneg_eq xs start (start + L) h0 (by omega) h1]
  have hlen : ((xs.drop start.toNat).take (start + L - start).toNat).length = L.toNat := by
    rw [List.length_take, List.length_drop]
    omega
  have hrlen : (pyRangeList start (start + L) 1).length = L.toNat := by
    unfold pyRangeList
    simp only [if_pos (by omega : (0:Int) < 1), List.length_map, List.length_range,
      Int.toNat_one, Nat.div_one]
    split_ifs with hc
    · omega
    · omega
  apply List.ext_getElem
  · rw [hlen, List.length_map, hrlen]
  · intro i hi1 hi2
    have hiL : i < L.toNat := by
      rw [hlen] at hi1
      exact hi1
    have hbound : start.toNat + i < xs.length := by omega
    rw [List.getElem_take, List.getElem_drop]
    simp only [pyRangeList, if_pos (by omega : (0:Int) < 1), List.map_map, List.getElem_map,
      List.getElem_range, Function.comp_apply]
    have harg : (start + (i : Int) * 1).toNat = start.toNat + i := by omega
    rw [harg, List.getD_eq_getElem _ _ hbound]

/-! Claim theorems. -/

/-- C1 counterexample: with T = 3, L = 2, S = 1 the claim predicts starts
0 and 1 (every start with start + L ≤ T, count floor((T-L)/S)+1 = 2), but the
loop range(0, T - L, S) generates only [0]. -/
theorem C1_counterexample :
    candidateStarts 3 2 1 = [0] ∧ (candidateStarts 3 2 1).length ≠ 2 := by
  constructor
  · decide
  · decide

/-- C1 amended: the candidate starts are exactly the multiples of S with
start + L strictly below T, so their number is ceil((T-L)/S), written
floor((T-L-1)/S) + 1 for L < T and 0 otherwise. -/
theorem C1_amended_strict_bound (T L S : Int) (hS : 1 ≤ S) :
    ((candidateStarts T L S).length =
      if L < T then (T - L - 1).toNat / S.toNat + 1 else 0) ∧
    (∀ x : Int, x ∈ candidateStarts T L S ↔
      ∃ m : Nat, x = (m : Int) * S ∧ x + L < T) :=
  ⟨candidateStarts_length T L S hS, fun x => mem_candidateStarts_iff T L S x hS⟩

/-- C1 witness: the amended characterisation at T = 6, L = 2, S = 2. -/
theorem C1_witness :
    (1 : Int) ≤ 2 ∧
    (((candidateStarts 6 2 2).length =
        if (2 : Int) < 6 then ((6 : Int) - 2 - 1).toNat / (2 : Int).toNat + 1 else 0) ∧
      (∀ x : Int, x ∈ candidateStarts 6 2 2 ↔
        ∃ m : Nat, x = (m : Int) * 2 ∧ x + 2 < 6)) :=
  ⟨by omega, C1_amended_strict_bound 6 2 2 (by omega)⟩

/-- C5 counterexample: with T = L = 2 the loop generates no window at all,
not one window spanning the whole sequence. -/
theorem C5_counterexample : (candidateStarts 2 2 1).length ≠ 1 := by decide

/-- C5 amended: L = T yields an empty candidate start list. -/
theorem C5_amended_L_eq_T_empty (T S : Int) : candidateStarts T T S = [] := by
  unfold candidateStarts pyRangeList
  simp [sub_self]

/-- C3 counterexample: with T = 1 < L = 2 the window list is empty, but the
function then raises at np.min over the empty score array instead of
returning the empty result. -/
theorem C3_counterexample :
    find_best_episodes [[1]] 2 1 =
      Except.error "ValueError: zero-size array to reduction operation minimum which has no identity" := by
  rfl

/-- C3 amended: when L > T the generated window list is empty, and the
ranker then raises an empty-reduction error rather than completing. -/
theorem C3_amended_empty_then_error (rews : List (List ℚ)) (L k : Int)
    (h1 : 1 ≤ rews.length) (h2 : (rews.length : Int) < L) :
    candidateStarts (rews.length : Int) L (pyFloorDiv L 2) = [] ∧
    find_best_episodes rews L k =
      Except.error "ValueError: zero-size array to reduction operation minimum which has no identity" := by
  have hL : (2 : Int) ≤ L := by omega
  have hs := one_le_fdiv_two L hL
  have hempty : pyRangeList 0 ((rews.length : Int) - L) (pyFloorDiv L 2) = [] := by
    simp only [pyRangeList]
    rw [if_pos (by omega : (0 : Int) < pyFloorDiv L 2),
      if_pos (by omega : (rews.length : Int) - L ≤ 0)]
    rfl
  refine ⟨hempty, ?_⟩
  unfold find_best_episodes pyRange
  rw [if_neg (by omega : ¬ pyFloorDiv L 2 = 0), hempty]
  rfl

/-- C3 witness: the amended behaviour at T = 1, L = 3. -/
theorem C3_witness :
    (1 ≤ [[(1 : ℚ)]].length ∧ (([[(1 : ℚ)]].length : Int) < 3)) ∧
    (candidateStarts ([[(1 : ℚ)]].length : Int) 3 (pyFloorDiv 3 2) = [] ∧
      find_best_episodes [[(1 : ℚ)]] 3 1 =
        Except.error "ValueError: zero-size array to reduction operation minimum which has no identity") :=
  ⟨⟨by decide, by decide⟩, C3_amended_empty_then_error [[(1 : ℚ)]] 3 1 (by decide) (by decide)⟩

/-- C7 counterexample: with L = 1 the default stride L // 2 is 0 and the
window loop raises, instead of succeeding with a stride floored at 1. -/
theorem C7_counterexample :
    find_best_episodes [[1], [2], [3]] 1 1 =
      Except.error "ValueError: range() arg 3 must not be zero" := by
  rfl

/-- C7 amended: the default stride is L // 2 with no floor of 1: for L = 1
the ranker raises a zero-step error, while for L ≥ 2 the stride is at
least 1. -/
theorem C7_amended_default_stride :
    (∀ (rews : List (List ℚ)) (k : Int),
        find_best_episodes rews 1 k =
          Except.error "ValueError: range() arg 3 must not be zero") ∧
    (∀ L : Int, 2 ≤ L → 1 ≤ pyFloorDiv L 2) := by
  constructor
  · intro rews k
    rfl
  · intro L hL
    exact one_le_fdiv_two L hL

/-- C7 witness: the amended statement at L = 1 and at L = 4. -/
theorem C7_witness :
    find_best_episodes [[1], [2]] 1 3 =
      Except.error "ValueError: range() arg 3 must not be zero" ∧
    ((2 : Int) ≤ 4 ∧ 1 ≤ pyFloorDiv 4 2) :=
  ⟨C7_amended_default_stride.1 [[1], [2]] 3, by omega,
    C7_amended_default_stride.2 4 (by omega)⟩

/-- C9: the ranking computation is deterministic: two runs of either
variant on identical inputs produce identical results. -/
theorem C9_deterministic (rews : List (List ℚ)) (L k : Int)
    (r1 r2 s1 s2 : Except String RankResult)
    (h1 : find_best_episodes rews L k = r1) (h2 : find_best_episodes rews L k = r2)
    (h3 : find_best_episodes_npz rews L k = s1)
    (h4 : find_best_episodes_npz rews L k = s2) :
    r1 = r2 ∧ s1 = s2 :=
  ⟨h1.symm.trans h2, h3.symm.trans h4⟩

/-- C9 witness: determinism instantiated on a concrete input. -/
theorem C9_witness :
    find_best_episodes [[1]] 2 1 = find_best_episodes [[1]] 2 1 ∧
    find_best_episodes_npz [[1]] 2 1 = find_best_episodes_npz [[1]] 2 1 :=
  C9_deterministic [[1]] 2 1 _ _ _ _ rfl rfl rfl rfl

theorem mem_pyRangeList_one (a b x : Int) :
    x ∈ pyRangeList a b 1 ↔ a ≤ x ∧ x < b := by
  unfold pyRangeList
  simp only [if_pos (by omega : (0 : Int) < 1), Int.toNat_one, Nat.div_one, List.mem_map,
    List.mem_range, mul_one]
  constructor
  · rintro ⟨k, hk, rfl⟩
    split_ifs at hk with hc
    · omega
    · omega
  · rintro ⟨hax, hxb⟩
    refine ⟨(x - a).toNat, ?_, by omega⟩
    split_ifs with hc
    · omega
    · omega

theorem pyRangeList_one_length (a b : Int) :
    (pyRangeList a b 1).length = (b - a).toNat := by
  unfold pyRangeList
  simp only [if_pos (by omega : (0 : Int) < 1), Int.toNat_one, Nat.div_one, List.length_map,
    List.length_range]
  split_ifs with hc
  · omega
  · omega

/-- C10: every start generated by the window loop satisfies
start + L ≤ T - 1, the min clamp in the scoring loop never truncates, every
scored window holds exactly L in-bounds timesteps, the final timestep T - 1
is never scored, and the NPZ slice of the same window also holds exactly L
rows. -/
theorem C10_window_in_bounds (T L S start : Int) (rews : List (List ℚ))
    (hS : 1 ≤ S) (hL : 0 ≤ L) (hT : (rews.length : Int) = T)
    (hmem : start ∈ candidateStarts T L S) :
    start + L ≤ T - 1 ∧
    min (start + L) T = start + L ∧
    (pyRangeList start (min (start + L) T) 1).length = L.toNat ∧
    (∀ t ∈ pyRangeList start (min (start + L) T) 1, 0 ≤ t ∧ t < T) ∧
    ((T - 1) ∉ pyRangeList start (min (start + L) T) 1) ∧
    (pySlice rews start (start + L)).length = L.toNat := by
  obtain ⟨m, hx, hlt⟩ := (mem_candidateStarts_iff T L S start hS).mp hmem
  have h0 : (0 : Int) ≤ start := by
    rw [hx]
    exact mul_nonneg (by positivity) (by omega)
  have hb : start + L ≤ T - 1 := by omega
  have hminT : min (start + L) T = start + L := min_eq_left (by omega)
  refine ⟨hb, hminT, ?_, ?_, ?_, ?_⟩
  · rw [hminT, pyRangeList_one_length]
    omega
  · intro t ht
    rw [hminT] at ht
    have := (mem_pyRangeList_one start (start + L) t).mp ht
    omega
  · intro hcon
    rw [hminT] at hcon
    have := (mem_pyRangeList_one start (start + L) (T - 1)).mp hcon
    omega
  · rw [pySlice_nonneg_eq rews start (start + L) h0 (by omega) (by omega)]
    rw [List.length_take, List.length_drop]
    omega

/-- C10 witness: the invariants at T = 5, L = 2, S = 1, start = 1. -/
theorem C10_witness :
    ((1 : Int) ≤ 1 ∧ (0 : Int) ≤ 2 ∧
      ((([[1], [1], [1], [1], [1]] : List (List ℚ)).length : Int) = 5) ∧
      (1 : Int) ∈ candidateStarts 5 2 1) ∧
    ((1 : Int) + 2 ≤ 5 - 1 ∧
      min ((1 : Int) + 2) 5 = 1 + 2 ∧
      (pyRangeList 1 (min ((1 : Int) + 2) 5) 1).length = (2 : Int).toNat ∧
      (∀ t ∈ pyRangeList 1 (min ((1 : Int) + 2) 5) 1, 0 ≤ t ∧ t < 5) ∧
      (((5 : Int) - 1) ∉ pyRangeList 1 (min ((1 : Int) + 2) 5) 1) ∧
      (pySlice ([[1], [1], [1], [1], [1]] : List (List ℚ)) 1 (1 + 2)).length =
        (2 : Int).toNat) :=
  ⟨⟨by omega, by omega, by decide, by decide⟩,
    C10_window_in_bounds 5 2 1 1 [[1], [1], [1], [1], [1]]
      (by omega) (by omega) (by decide) (by decide)⟩

/-- C2 counterexample: at the generated start 0 (T = 4, L = 2, S = 1), the
JSON variant scores the window as the sum of per-timestep means (5), but
the NPZ and progression variants score the raw sum over agents and
timesteps (10): the mean-across-agents rule is not applied consistently. -/
theorem C2_counterexample :
    (0 : Int) ∈ candidateStarts 4 2 1 ∧
    windowScore [[1, 3], [2, 4], [0, 0], [0, 0]] 0 2 = 5 ∧
    npzWindowScore [[1, 3], [2, 4], [0, 0], [0, 0]] 0 2 = 10 ∧
    segmentReward [[1, 3], [2, 4], [0, 0], [0, 0]] 0 2 = 10 ∧
    (10 : ℚ) ≠ 5 := by
  refine ⟨by decide, ?_, ?_, ?_, by norm_num⟩
  · norm_num [windowScore, pyRangeList, npMean, List.range_succ]
  · simp [npzWindowScore, pySlice]
    norm_num
  · simp [segmentReward, pySlice]
    norm_num

/-- C2 amended: the JSON variant scores a window as the sum over timesteps
of the mean reward across agents; the NPZ and progression variants instead
sum the raw rewards over agents and timesteps (they agree with each other),
and with a uniform agent count A the raw-sum score is A times the
mean-based score. -/
theorem C2_amended_sum_vs_mean (rews : List (List ℚ)) (start L : Int) (A : Nat)
    (h0 : 0 ≤ start) (hL : 0 ≤ L) (h1 : start + L ≤ (rews.length : Int))
    (hA : ∀ row ∈ rews, row.length = A) (hA0 : 0 < A) :
    segmentReward rews start L = npzWindowScore rews start L ∧
    npzWindowScore rews start L = (A : ℚ) * windowScore rews start L := by
  refine ⟨rfl, ?_⟩
  have hAne : (A : ℚ) ≠ 0 := Nat.cast_ne_zero.mpr (by omega)
  unfold npzWindowScore windowScore
  rw [slice_eq_range_map rews start L h0 hL h1, List.map_map]
  have hco : ∀ t ∈ pyRangeList start (min (start + L) (rews.length : Int)) 1,
      (List.sum ∘ fun t : Int => rews.getD t.toNat []) t
        = (A : ℚ) * npMean (rews.getD t.toNat []) := by
    intro t ht
    rw [min_eq_left h1] at ht
    have hmem := (mem_pyRangeList_one start (start + L) t).mp ht
    have htb : t.toNat < rews.length := by omega
    have hrow : rews.getD t.toNat [] ∈ rews := by
      rw [List.getD_eq_getElem _ _ htb]
      exact List.getElem_mem htb
    have hlen := hA _ hrow
    simp only [Function.comp_apply, npMean, hlen]
    rw [mul_comm ((A : ℚ)) _, div_mul_cancel₀ _ hAne]
  rw [List.map_congr_left hco, List.sum_map_mul_left]

/-- C2 witness: the amended relation at a two-agent trajectory, start 0,
L = 2, A = 2. -/
theorem C2_witness :
    ((0 : Int) ≤ 0 ∧ (0 : Int) ≤ 2 ∧
      (0 : Int) + 2 ≤ (([[1, 3], [2, 4], [0, 0], [0, 0]] : List (List ℚ)).length : Int) ∧
      (∀ row ∈ ([[1, 3], [2, 4], [0, 0], [0, 0]] : List (List ℚ)), row.length = 2) ∧
      0 < 2) ∧
    (segmentReward [[1, 3], [2, 4], [0, 0], [0, 0]] 0 2 =
        npzWindowScore [[1, 3], [2, 4], [0, 0], [0, 0]] 0 2 ∧
      npzWindowScore [[1, 3], [2, 4], [0, 0], [0, 0]] 0 2 =
        ((2 : Nat) : ℚ) * windowScore [[1, 3], [2, 4], [0, 0], [0, 0]] 0 2) :=
  ⟨⟨by omega, by omega, by decide, by decide, by omega⟩,
    C2_amended_sum_vs_mean [[1, 3], [2, 4], [0, 0], [0, 0]] 0 2 2
      (by omega) (by omega) (by decide) (by decide) (by omega)⟩

/-- The argsort output lists indices in strictly ascending score order,
with ties broken by the earlier original index first. -/
theorem argsort_pairwise_ascBefore (xs : List ℚ) :
    (npArgsort xs).Pairwise (ascBefore xs) := by
  unfold npArgsort
  rw [List.pairwise_map]
  have hS := stableInsertionSort_enum_pairwise xs
  refine List.Pairwise.imp_of_mem ?_ hS
  intro p q hp hq hpq
  have hp2 := mem_sorted_link xs p hp
  have hq2 := mem_sorted_link xs q hq
  unfold ascBefore
  rcases hpq with h | ⟨h, h2⟩
  · left
    rw [hp2.2, hq2.2]
    exact h
  · right
    refine ⟨?_, h2⟩
    rw [hp2.2, hq2.2]
    exact h

/-- C4 counterexample: on five constant rewards (three tied windows, all
scoring 2) with top_n = 2, the code lists the best windows as [2, 1]
(latest start first), not [0, 1] as the earliest-start tie rule predicts. -/
theorem C4_counterexample :
    (find_best_episodes [[1], [1], [1], [1], [1]] 2 2).map RankResult.best_indices =
      Except.ok [2, 1] ∧ ([2, 1] : List Nat) ≠ [0, 1] := by
  have hsort : npArgsort [2, 2, 2] = [0, 1, 2] := by
    norm_num [npArgsort, stableInsertionSort, insertByValue, List.enum, List.enumFrom]
  have heq : find_best_episodes [[1], [1], [1], [1], [1]] 2 2 =
      Except.ok ⟨[0, 1, 2], [2, 2, 2], [2, 1], [0, 1]⟩ := by
    refine find_best_episodes_eq _ 2 2 [0, 1, 2] [2, 2, 2] [2, 1] [0, 1]
      (by decide) (by decide) ?_ (by decide) ?_ ?_ (by decide) (by decide)
    · norm_num [windowScore, pyRangeList, npMean, List.range_succ]
      simp [List.range_succ]
      norm_num
    · simp only [bestIndicesOf, hsort]
      decide
    · simp only [worstIndicesOf, hsort]
      decide
  rw [heq]
  exact ⟨rfl, by decide⟩

/-- C4 amended: under the stable argsort model the bottom-K listing is by
score ascending with ties broken by the earliest window index, but the
top-K listing (a reversed slice of the ascending argsort) is by score
descending with ties broken by the latest window index. -/
theorem C4_amended_tie_order (scores : List ℚ) (k : Int) :
    (bestIndicesOf scores k).Pairwise (descBefore scores) ∧
    (worstIndicesOf scores k).Pairwise (ascBefore scores) ∧
    (worstIndicesNpz scores k).Pairwise (ascBefore scores) := by
  have hasc := argsort_pairwise_ascBefore scores
  refine ⟨?_, ?_, ?_⟩
  · unfold bestIndicesOf pySliceFrom
    rw [List.pairwise_reverse]
    refine List.Pairwise.imp ?_ (hasc.sublist (List.drop_sublist _ _))
    intro a b h
    rcases h with h | ⟨h, h2⟩
    · exact Or.inl h
    · exact Or.inr ⟨h.symm, h2⟩
  · unfold worstIndicesOf pySliceTo
    exact hasc.sublist (List.take_sublist _ _)
  · unfold worstIndicesNpz pySliceTo
    exact hasc.sublist (List.take_sublist _ _)

/-- C6 counterexample: a negative top_n is not rejected: with three windows
and top_n = -1 the ranker completes and produces a result. -/
theorem C6_counterexample :
    (find_best_episodes [[5], [1], [3], [2], [4]] 2 (-1)).isOk = true := by
  have hsort : npArgsort [6, 4, 5] = [1, 2, 0] := by
    norm_num [npArgsort, stableInsertionSort, insertByValue, List.enum, List.enumFrom]
  have heq : find_best_episodes [[5], [1], [3], [2], [4]] 2 (-1) =
      Except.ok ⟨[0, 1, 2], [6, 4, 5], [0, 2], [1, 2]⟩ := by
    refine find_best_episodes_eq _ 2 (-1) [0, 1, 2] [6, 4, 5] [0, 2] [1, 2]
      (by decide) (by decide) ?_ (by decide) ?_ ?_ (by decide) (by decide)
    · norm_num [windowScore, pyRangeList, npMean, List.range_succ]
      simp [List.range_succ]
      norm_num
    · simp only [bestIndicesOf, hsort]
      decide
    · simp only [worstIndicesOf, hsort]
      decide
  rw [heq]
  rfl

/-- C6 amended: the ranker performs no parameter validation: a window
length of 0 makes the stride 0 and range raises a ValueError (not an
explicit InvalidParameter check), while a negative top_n is accepted and a
result is produced. -/
theorem C6_amended_no_validation :
    (∀ (rews : List (List ℚ)) (k : Int),
        find_best_episodes rews 0 k =
          Except.error "ValueError: range() arg 3 must not be zero") ∧
    (find_best_episodes [[1], [2], [3], [4], [5]] 2 (-1)).isOk = true := by
  constructor
  · intro rews k
    rfl
  · have hsort : npArgsort [3, 5, 7] = [0, 1, 2] := by
      norm_num [npArgsort, stableInsertionSort, insertByValue, List.enum, List.enumFrom]
    have heq : find_best_episodes [[1], [2], [3], [4], [5]] 2 (-1) =
        Except.ok ⟨[0, 1, 2], [3, 5, 7], [2, 1], [0, 1]⟩ := by
      refine find_best_episodes_eq _ 2 (-1) [0, 1, 2] [3, 5, 7] [2, 1] [0, 1]
        (by decide) (by decide) ?_ (by decide) ?_ ?_ (by decide) (by decide)
      · norm_num [windowScore, pyRangeList, npMean, List.range_succ]
        simp [List.range_succ]
        norm_num
      · simp only [bestIndicesOf, hsort]
        decide
      · simp only [worstIndicesOf, hsort]
        decide
    rw [heq]
    rfl

/-- C8: at a successful top_k = bottom_k = 1 run of the NPZ ranker, the
selected best window scores at least every generated window score and the
selected worst window scores at most every generated window score. -/
theorem C8_top1_bottom1_extremal (rewards : List (List ℚ)) (L : Int) (res : RankResult)
    (h : find_best_episodes_npz rewards L 1 = Except.ok res) :
    res.best_indices ≠ [] ∧ res.worst_indices ≠ [] ∧
    (∀ i ∈ res.best_indices, ∀ q ∈ res.episode_rewards,
      q ≤ res.episode_rewards.getD i 0) ∧
    (∀ i ∈ res.worst_indices, ∀ q ∈ res.episode_rewards,
      res.episode_rewards.getD i 0 ≤ q) := by
  obtain ⟨hsc, hne, hbest, hworst⟩ := find_best_episodes_npz_ok_inv rewards L 1 res h
  refine ⟨?_, ?_, ?_, ?_⟩
  · rw [hbest]
    exact bestIndicesOf_one_ne_nil _ hne
  · rw [hworst]
    exact worstIndicesNpz_one_ne_nil _ hne
  · intro i hi q hq
    rw [hbest] at hi
    exact bestIndicesOf_one_max _ i hi q hq
  · intro i hi q hq
    rw [hworst, worstIndicesNpz_one_eq] at hi
    exact argsort_take_one_min _ i hi q hq

/-- C8 witness: the extremal property at a successful concrete run. -/
theorem C8_witness :
    find_best_episodes_npz [[1], [5], [3], [2]] 2 1 =
      Except.ok ⟨[0, 1], [6, 8], [1], [0]⟩ ∧
    ((⟨[0, 1], [6, 8], [1], [0]⟩ : RankResult).best_indices ≠ [] ∧
      (⟨[0, 1], [6, 8], [1], [0]⟩ : RankResult).worst_indices ≠ [] ∧
      (∀ i ∈ (⟨[0, 1], [6, 8], [1], [0]⟩ : RankResult).best_indices,
        ∀ q ∈ (⟨[0, 1], [6, 8], [1], [0]⟩ : RankResult).episode_rewards,
          q ≤ (⟨[0, 1], [6, 8], [1], [0]⟩ : RankResult).episode_rewards.getD i 0) ∧
      (∀ i ∈ (⟨[0, 1], [6, 8], [1], [0]⟩ : RankResult).worst_indices,
        ∀ q ∈ (⟨[0, 1], [6, 8], [1], [0]⟩ : RankResult).episode_rewards,
          (⟨[0, 1], [6, 8], [1], [0]⟩ : RankResult).episode_rewards.getD i 0 ≤ q)) := by
  have hsort : npArgsort [6, 8] = [0, 1] := by
    norm_num [npArgsort, stableInsertionSort, insertByValue, List.enum, List.enumFrom]
  have heq : find_best_episodes_npz [[1], [5], [3], [2]] 2 1 =
      Except.ok ⟨[0, 1], [6, 8], [1], [0]⟩ := by
    refine find_best_episodes_npz_eq _ 2 1 [0, 1] [6, 8] [1] [0]
      (by decide) (by decide) ?_ (by decide) ?_ ?_ (by decide) (by decide)
    · simp [npzWindowScore, pySlice]
      norm_num
    · simp only [bestIndicesOf, hsort]
      decide
    · simp only [worstIndicesNpz, hsort]
      decide
  exact ⟨heq, C8_top1_bottom1_extremal [[1], [5], [3], [2]] 2 _ heq⟩
